import Mathlib

/-!
Shallow embedding of `reproduce.py` (sentimentxyz/protocol-v2).

The script converts an Echidna fuzzer call trace into a Solidity replay
test.  Python strings are modelled as `List Char`; the two compiled
regular expressions are modelled by deterministic matcher functions.
Determinism of the hand compilation: in
`(?:FuzzEchidna\.)?(\w+\([^\)]*\))(?: from: (0x[0-9a-fA-F]{40}))?(?: Time delay: (\d+) seconds)?(?: Block delay: (\d+))?`
the group `\w+\([^\)]*\)` admits no useful backtracking (shortening the
greedy `\w+` leaves a word character where `\(` is required, and
shortening the greedy `[^\)]*` leaves a non-`)` character where `\)` is
required), the optional groups carry no internal choice points that
could interact (each either matches greedily at the current position or
is skipped, and the pattern after them always succeeds), so a Python
`re.search` is: try the deterministic match at each position from the
left, return the first success.  Character classes `\w`, `\d`,
`[0-9a-fA-F]` and `str.strip` whitespace are modelled on the ASCII
range, which covers every character the script is applied to.
-/

namespace Reproduce

/-- ASCII fragment of the whitespace set removed by the Python `str.strip`. -/
def pyIsSpace (c : Char) : Bool :=
  c == ' ' || c == '\t' || c == '\n' || c == '\r' || c == '\x0b' || c == '\x0c'

/-- Python `str.strip()`: remove leading and trailing whitespace. -/
def pyStrip (s : List Char) : List Char :=
  ((s.dropWhile pyIsSpace).reverse.dropWhile pyIsSpace).reverse

/-- Python `str.split(chr(10))`: split on newlines, keeping empty pieces; the
empty string yields one empty piece. -/
def splitNl : List Char → List (List Char)
  | [] => [[]]
  | c :: cs =>
    if c = '\n' then [] :: splitNl cs
    else
      match splitNl cs with
      | [] => [[c]]
      | l :: ls => (c :: l) :: ls

/-- Match a literal at the head of the input; return the remainder on success. -/
def dropLit : List Char → List Char → Option (List Char)
  | [], s => some s
  | _ :: _, [] => none
  | l :: ls, c :: cs => if c = l then dropLit ls cs else none

/-- Python regex `\w` on the ASCII range: letters, digits, underscore. -/
def isWordChar (c : Char) : Bool :=
  c.isAlphanum || c == '_'

/-- Regex class `[0-9a-fA-F]`. -/
def isHexDigit (c : Char) : Bool :=
  c.isDigit || (decide ('a' ≤ c) && decide (c ≤ 'f')) || (decide ('A' ≤ c) && decide (c ≤ 'F'))

/-- Regex class `[^\)]`: any character other than a closing parenthesis. -/
def notRParen (c : Char) : Bool :=
  !(c == ')')

/-- Capturing group 1 of the call pattern, `\w+\([^\)]*\)`, matched at the
current position: a maximal nonempty word run, an opening parenthesis,
everything up to the first closing parenthesis, and that parenthesis.
Returns the captured text and the remainder. -/
def matchCore (s : List Char) : Option (List Char × List Char) :=
  match s.dropWhile isWordChar with
  | [] => none
  | c :: r2 =>
    if c = '(' ∧ s.takeWhile isWordChar ≠ [] then
      match r2.dropWhile notRParen with
      | [] => none
      | c2 :: r4 =>
        if c2 = ')' then
          some (s.takeWhile isWordChar ++ '(' :: (r2.takeWhile notRParen ++ [')']), r4)
        else none
    else none

/-- Optional group `(?: from: (0x[0-9a-fA-F]{40}))?` tried at the current
position: the literal, then `0x`, then exactly forty hexadecimal digits.
The capture includes the `0x`. -/
def matchFromGroup (s : List Char) : Option (List Char × List Char) :=
  match dropLit " from: ".data s with
  | some r1 =>
    match dropLit "0x".data r1 with
    | some r2 =>
      if (r2.take 40).length = 40 ∧ (r2.take 40).all isHexDigit then
        some ('0' :: 'x' :: r2.take 40, r2.drop 40)
      else none
    | none => none
  | none => none

/-- Optional group `(?: Time delay: (\d+) seconds)?` tried at the current
position: the literal, a maximal nonempty digit run, the literal ` seconds`. -/
def matchTimeGroup (s : List Char) : Option (List Char × List Char) :=
  match dropLit " Time delay: ".data s with
  | some r1 =>
    if r1.takeWhile Char.isDigit = [] then none
    else
      match dropLit " seconds".data (r1.dropWhile Char.isDigit) with
      | some r2 => some (r1.takeWhile Char.isDigit, r2)
      | none => none
  | none => none

/-- Optional group `(?: Block delay: (\d+))?` tried at the current position. -/
def matchBlockGroup (s : List Char) : Option (List Char × List Char) :=
  match dropLit " Block delay: ".data s with
  | some r1 =>
    if r1.takeWhile Char.isDigit = [] then none
    else some (r1.takeWhile Char.isDigit, r1.dropWhile Char.isDigit)
  | none => none

/-- Run an optional group: on failure nothing is consumed and the capture
stays `none`. -/
def tryOpt (f : List Char → Option (List Char × List Char)) (s : List Char) :
    Option (List Char) × List Char :=
  match f s with
  | some (x, r) => (some x, r)
  | none => (none, s)

/-- Captures of the call pattern, in group order. -/
structure CallMatch where
  call : List Char
  fromAddr : Option (List Char)
  timeDelay : Option (List Char)
  blockDelay : Option (List Char)
  deriving Repr, DecidableEq

/-- The call pattern without its optional `FuzzEchidna.` head, matched at the
current position: group 1 then the three optional groups in order. -/
def matchCallGroups (s : List Char) : Option CallMatch :=
  match matchCore s with
  | none => none
  | some (call, r1) =>
    match tryOpt matchFromGroup r1 with
    | (fa, r2) =>
      match tryOpt matchTimeGroup r2 with
      | (td, r3) =>
        match tryOpt matchBlockGroup r3 with
        | (bd, _) => some ⟨call, fa, td, bd⟩

/-- The full call pattern matched at the current position: the optional
non-capturing `(?:FuzzEchidna\.)?` head is tried greedily and dropped on
backtracking, as the regex engine does. -/
def matchCallAt (s : List Char) : Option CallMatch :=
  match dropLit "FuzzEchidna.".data s with
  | some r =>
    match matchCallGroups r with
    | some m => some m
    | none => matchCallGroups s
  | none => matchCallGroups s

/-- Python `call_pattern.search`: leftmost match of the call pattern. -/
def callSearch : List Char → Option CallMatch
  | [] => matchCallAt []
  | c :: cs =>
    match matchCallAt (c :: cs) with
    | some m => some m
    | none => callSearch cs

/-- Captures of the wait pattern, in group order. -/
structure WaitMatch where
  timeDelay : Option (List Char)
  blockDelay : Option (List Char)
  deriving Repr, DecidableEq

/-- The wait pattern `\*wait\*(?: Time delay: (\d+) seconds)?(?: Block delay: (\d+))?`
matched at the current position. -/
def matchWaitAt (s : List Char) : Option WaitMatch :=
  match dropLit "*wait*".data s with
  | some r1 =>
    match tryOpt matchTimeGroup r1 with
    | (td, r2) =>
      match tryOpt matchBlockGroup r2 with
      | (bd, _) => some ⟨td, bd⟩
  | none => none

/-- Python `wait_pattern.search`: leftmost match of the wait pattern. -/
def waitSearch : List Char → Option WaitMatch
  | [] => matchWaitAt []
  | c :: cs =>
    match matchWaitAt (c :: cs) with
    | some m => some m
    | none => waitSearch cs

/-- Sender-impersonation statement, emitted when the `from:` capture exists. -/
def optPrank : Option (List Char) → String
  | some a => "    vm.prank(" ++ String.mk a ++ ");\n"
  | none => ""

/-- Time-warp statement, emitted when the time-delay capture exists. -/
def optWarp : Option (List Char) → String
  | some d => "    vm.warp(block.timestamp + " ++ String.mk d ++ ");\n"
  | none => ""

/-- Block-roll statement, emitted when the block-delay capture exists. -/
def optRoll : Option (List Char) → String
  | some d => "    vm.roll(block.number + " ++ String.mk d ++ ");\n"
  | none => ""

/-- The call statement: guarded (try/catch) for a line before the last input
line, direct for the last input line. -/
def callStmt (guarded : Bool) (call : List Char) : String :=
  if guarded then "    try this." ++ String.mk call ++ " \x7b\x7d catch \x7b\x7d\n"
  else "    " ++ String.mk call ++ ";\n"

/-- Statements emitted for one input line: the call branch when the call
pattern matches, otherwise the wait branch when the wait pattern matches,
otherwise nothing. -/
def lineBlock (guarded : Bool) (line : List Char) : String :=
  match callSearch line with
  | some m =>
    optPrank m.fromAddr ++ optWarp m.timeDelay ++ optRoll m.blockDelay
      ++ callStmt guarded m.call ++ "\n"
  | none =>
    match waitSearch line with
    | some w => optWarp w.timeDelay ++ optRoll w.blockDelay ++ "\n"
    | none => ""

/-- The enumerate loop of the script: `i` is the index of the head line,
`last` the index of the final line; a line is guarded when `i < last`. -/
def emitLines (last : Nat) : Nat → List (List Char) → String
  | _, [] => ""
  | i, l :: ls => lineBlock (decide (i < last)) l ++ emitLines last (i + 1) ls

/-- The function `convert_to_solidity` of `reproduce.py`. -/
def convert_to_solidity (s : List Char) : String :=
  let lines := splitNl (pyStrip s)
  "function test_replay() public \x7b\n" ++ emitLines (lines.length - 1) 0 lines ++ "\x7d\n"

/-- Decidable substring occurrence, used to state counterexamples. -/
def occursIn (pat : List Char) : List Char → Bool
  | [] => (dropLit pat []).isSome
  | c :: cs => (dropLit pat (c :: cs)).isSome || occursIn pat cs


/-! Lines of the example fuzzer trace embedded at the bottom of the script:
the Python triple-quoted string holds a leading newline and the six call
lines, each terminated by a newline. -/

/-- Line 1 of the embedded example trace. -/
def exLine1 : List Char :=
  ("SentimentInvariant.positionManager_newPosition(75,4239602985371585519784857218799180951679468223758275120249902258298053285541,\"position\")").data

/-- Line 2 of the embedded example trace. -/
def exLine2 : List Char :=
  ("    SentimentInvariant.pool_deposit(5612412082746186779809571297207334191670470084944640256457657716870436111,16104550189466369373819457437429255987510137376595966637444104495934790722636,12319354668605856336294002983822144207718355281074213007300369367711086407307,1021616440887380716403815181483871874997098579803441396240324839152952487595)").data

/-- Line 3 of the embedded example trace. -/
def exLine3 : List Char :=
  ("    SentimentInvariant.positionManager_processBatch(29913191965466402270774915614123778056948669361245930848093205140368824978679,121964281798266314902772058723270348670251064215350461179096180247114190349,1123916528497691789529510728220709526180606423706697110566719127638734689807,810986,110561,683836)").data

/-- Line 4 of the embedded example trace. -/
def exLine4 : List Char :=
  ("    SentimentInvariant.positionManager_processBatch(87504998830143455158888229754666117995313845855954541742939848598923729040307,4370000,8900064022872852546885709482223329369436430294683914471222744702087126915340,53231469424195511978190971480577719241134195860811605962902140368237757929793,3989271,1524785993)").data

/-- Line 5 of the embedded example trace. -/
def exLine5 : List Char :=
  ("    SentimentInvariant.superPool_deposit(2471014626329562921766540973864040188790499827740232305849727907622532581037,300049927207275286912120677015645361286792388203387750473288385764701810278,9611,11) Time delay: 12890 seconds Block delay: 2").data

/-- Line 6 of the embedded example trace. -/
def exLine6 : List Char :=
  ("    SentimentInvariant.superPool_accrue(3875522779618249902206140535752302124524143995845094822322398450454949470,1294549)").data

/-- The example lines joined by newlines, without the surrounding blank
lines. -/
def exBody : List Char :=
  exLine1 ++ '\n' :: (exLine2 ++ '\n' :: (exLine3 ++ '\n' :: (exLine4 ++ '\n' ::
    (exLine5 ++ '\n' :: exLine6))))

/-- The variable `call_sequence` of the script: the full triple-quoted
example string, a newline followed by the joined lines and a final
newline. -/
def call_sequence : List Char :=
  '\n' :: (exBody ++ ['\n'])

/-- Text consumed by the from-group when its capture exists. -/
def fText : Option (List Char) → List Char
  | some a => " from: ".data ++ a
  | none => []

/-- Text consumed by the time-delay group when its capture exists. -/
def tText : Option (List Char) → List Char
  | some d => " Time delay: ".data ++ d ++ " seconds".data
  | none => []

/-- Text consumed by the block-delay group when its capture exists. -/
def bText : Option (List Char) → List Char
  | some d => " Block delay: ".data ++ d
  | none => []

/-- Shape of a group 1 capture: a nonempty word run, an opening parenthesis, a
body free of closing parentheses, and exactly one closing parenthesis at the
end — the capture is truncated at the first closing parenthesis. -/
def callShape (c : List Char) : Prop :=
  ∃ w mid, c = w ++ '(' :: (mid ++ [')']) ∧ w ≠ [] ∧
    (∀ x ∈ w, isWordChar x = true) ∧ ∀ x ∈ mid, notRParen x = true

/-- Shape of a from-group capture: `0x` and forty hexadecimal digits. -/
def addrShape : Option (List Char) → Prop
  | some a => ∃ hx, a = '0' :: 'x' :: hx ∧ hx.length = 40 ∧ ∀ x ∈ hx, isHexDigit x = true
  | none => True

/-- Shape of a delay capture: a nonempty run of digits. -/
def digitsShape : Option (List Char) → Prop
  | some d => d ≠ [] ∧ ∀ x ∈ d, x.isDigit = true
  | none => True

/-- Test for a well-formed address capture at the head of the input: `0x`
followed by forty hexadecimal digits. -/
def beginsWithAddr (tail : List Char) : Bool :=
  match dropLit "0x".data tail with
  | some r2 => decide ((r2.take 40).length = 40) && (r2.take 40).all isHexDigit
  | none => false

/-! Lemmas about the primitive matchers. -/

theorem dropLit_some : ∀ {lit s r : List Char}, dropLit lit s = some r → s = lit ++ r := by
  intro lit
  induction lit with
  | nil =>
    intro s r h
    simp only [dropLit, Option.some.injEq] at h
    simp [h]
  | cons l ls ih =>
    intro s r h
    cases s with
    | nil => simp [dropLit] at h
    | cons c cs =>
      by_cases hc : c = l
      · subst hc
        simp only [dropLit, if_pos rfl] at h
        simp [ih h]
      · simp [dropLit, hc] at h

theorem dropLit_self : ∀ (lit r : List Char), dropLit lit (lit ++ r) = some r := by
  intro lit r
  induction lit with
  | nil => rfl
  | cons l ls ih => simp [dropLit, ih]

theorem takeWhile_all {α : Type} {p : α → Bool} :
    ∀ (w rest : List α), (∀ c ∈ w, p c = true) →
      List.takeWhile p (w ++ rest) = w ++ List.takeWhile p rest := by
  intro w
  induction w with
  | nil => simp
  | cons a w ih =>
    intro rest h
    have ha : p a = true := h a (by simp)
    simp [List.takeWhile_cons, ha, ih rest fun c hc => h c (by simp [hc])]

theorem dropWhile_all {α : Type} {p : α → Bool} :
    ∀ (w rest : List α), (∀ c ∈ w, p c = true) →
      List.dropWhile p (w ++ rest) = List.dropWhile p rest := by
  intro w
  induction w with
  | nil => simp
  | cons a w ih =>
    intro rest h
    have ha : p a = true := h a (by simp)
    simp [List.dropWhile_cons, ha, ih rest fun c hc => h c (by simp [hc])]

theorem matchCore_some {s call r : List Char} (h : matchCore s = some (call, r)) :
    s = call ++ r ∧ callShape call := by
  unfold matchCore at h
  split at h
  · exact absurd h (by simp)
  case _ c r2 heq =>
    split at h
    case _ hcond =>
      obtain ⟨hc, hw⟩ := hcond
      subst hc
      split at h
      · exact absurd h (by simp)
      case _ c2 r4 heq2 =>
        split at h
        case _ hc2 =>
          subst hc2
          simp only [Option.some.injEq, Prod.mk.injEq] at h
          obtain ⟨hcall, hr⟩ := h
          subst hcall
          subst hr
          constructor
          · have h1 : s.takeWhile isWordChar ++ s.dropWhile isWordChar = s :=
              List.takeWhile_append_dropWhile _ _
            have h2 : r2.takeWhile notRParen ++ r2.dropWhile notRParen = r2 :=
              List.takeWhile_append_dropWhile _ _
            rw [heq2] at h2
            rw [heq] at h1
            conv_lhs => rw [← h1, ← h2]
            simp
          · refine ⟨s.takeWhile isWordChar, r2.takeWhile notRParen, rfl, hw, ?_, ?_⟩
            · exact fun x hx => List.mem_takeWhile_imp hx
            · exact fun x hx => List.mem_takeWhile_imp hx
        · exact absurd h (by simp)
    · exact absurd h (by simp)

theorem matchFromGroup_some {s a r : List Char} (h : matchFromGroup s = some (a, r)) :
    s = " from: ".data ++ a ++ r ∧ addrShape (some a) := by
  unfold matchFromGroup at h
  split at h
  case _ r1 heq =>
    split at h
    case _ r2 heq2 =>
      split at h
      case _ hc =>
        simp only [Option.some.injEq, Prod.mk.injEq] at h
        obtain ⟨ha, hr⟩ := h
        subst ha
        subst hr
        have hs := dropLit_some heq
        have hs2 := dropLit_some heq2
        constructor
        · have h0x : "0x".data = ['0', 'x'] := rfl
          rw [hs, hs2, h0x]
          have ht : r2.take 40 ++ r2.drop 40 = r2 := List.take_append_drop 40 r2
          conv_lhs => rw [← ht]
          simp
        · exact ⟨r2.take 40, rfl, hc.1, List.all_eq_true.mp hc.2⟩
      · exact absurd h (by simp)
    · exact absurd h (by simp)
  · exact absurd h (by simp)

theorem matchTimeGroup_some {s d r : List Char} (h : matchTimeGroup s = some (d, r)) :
    s = " Time delay: ".data ++ d ++ " seconds".data ++ r ∧ digitsShape (some d) := by
  unfold matchTimeGroup at h
  split at h
  case _ r1 heq =>
    split at h
    · exact absurd h (by simp)
    case _ hd =>
      split at h
      case _ r2 heq2 =>
        simp only [Option.some.injEq, Prod.mk.injEq] at h
        obtain ⟨hdd, hr⟩ := h
        subst hdd
        subst hr
        have hs := dropLit_some heq
        have hs2 := dropLit_some heq2
        constructor
        · have h1 : r1.takeWhile Char.isDigit ++ r1.dropWhile Char.isDigit = r1 :=
            List.takeWhile_append_dropWhile _ _
          rw [hs2] at h1
          rw [hs]
          conv_lhs => rw [← h1]
          simp
        · exact ⟨hd, fun x hx => List.mem_takeWhile_imp hx⟩
      · exact absurd h (by simp)
  · exact absurd h (by simp)

theorem matchBlockGroup_some {s d r : List Char} (h : matchBlockGroup s = some (d, r)) :
    s = " Block delay: ".data ++ d ++ r ∧ digitsShape (some d) := by
  unfold matchBlockGroup at h
  split at h
  case _ r1 heq =>
    split at h
    · exact absurd h (by simp)
    case _ hd =>
      simp only [Option.some.injEq, Prod.mk.injEq] at h
      obtain ⟨hdd, hr⟩ := h
      subst hdd
      subst hr
      have hs := dropLit_some heq
      constructor
      · have h1 : r1.takeWhile Char.isDigit ++ r1.dropWhile Char.isDigit = r1 :=
          List.takeWhile_append_dropWhile _ _
        rw [hs]
        conv_lhs => rw [← h1]
        simp
      · exact ⟨hd, fun x hx => List.mem_takeWhile_imp hx⟩
  · exact absurd h (by simp)

/-- Case analysis for an optional group: it is skipped, or its match is real. -/
theorem tryOpt_cases (f : List Char → Option (List Char × List Char)) (s : List Char) :
    (f s = none ∧ tryOpt f s = (none, s)) ∨
      ∃ x r, f s = some (x, r) ∧ tryOpt f s = (some x, r) := by
  unfold tryOpt
  cases hf : f s with
  | none => exact Or.inl ⟨rfl, rfl⟩
  | some pr => exact Or.inr ⟨pr.1, pr.2, by rw [← hf], rfl⟩

theorem matchCallGroups_some {s : List Char} {m : CallMatch}
    (h : matchCallGroups s = some m) :
    (∃ rest, s = m.call ++ fText m.fromAddr ++ tText m.timeDelay ++ bText m.blockDelay ++ rest)
      ∧ callShape m.call ∧ addrShape m.fromAddr
      ∧ digitsShape m.timeDelay ∧ digitsShape m.blockDelay := by
  unfold matchCallGroups at h
  split at h
  · exact absurd h (by simp)
  case _ call r1 heq =>
    obtain ⟨hs1, hshape⟩ := matchCore_some heq
    rcases tryOpt_cases matchFromGroup r1 with ⟨hf, hto⟩ | ⟨a, r2, hf, hto⟩ <;>
      rw [hto] at h <;> (try dsimp only at h)
    · rcases tryOpt_cases matchTimeGroup r1 with ⟨ht, hto2⟩ | ⟨d, r3, ht, hto2⟩ <;>
        rw [hto2] at h <;> (try dsimp only at h)
      · rcases tryOpt_cases matchBlockGroup r1 with ⟨hb, hto3⟩ | ⟨e, r4, hb, hto3⟩ <;>
          rw [hto3] at h <;> (try dsimp only at h) <;> simp only [Option.some.injEq] at h <;> subst h
        · exact ⟨⟨r1, by simp [fText, tText, bText, hs1]⟩, hshape, trivial, trivial, trivial⟩
        · obtain ⟨hb1, hb2⟩ := matchBlockGroup_some hb
          refine ⟨⟨r4, ?_⟩, hshape, trivial, trivial, hb2⟩
          rw [hs1, hb1]
          simp [fText, tText, bText]
      · obtain ⟨ht1, ht2⟩ := matchTimeGroup_some ht
        rcases tryOpt_cases matchBlockGroup r3 with ⟨hb, hto3⟩ | ⟨e, r4, hb, hto3⟩ <;>
          rw [hto3] at h <;> (try dsimp only at h) <;> simp only [Option.some.injEq] at h <;> subst h
        · refine ⟨⟨r3, ?_⟩, hshape, trivial, ht2, trivial⟩
          rw [hs1, ht1]
          simp [fText, tText, bText]
        · obtain ⟨hb1, hb2⟩ := matchBlockGroup_some hb
          refine ⟨⟨r4, ?_⟩, hshape, trivial, ht2, hb2⟩
          rw [hs1, ht1, hb1]
          simp [fText, tText, bText]
    · obtain ⟨hf1, hf2⟩ := matchFromGroup_some hf
      rcases tryOpt_cases matchTimeGroup r2 with ⟨ht, hto2⟩ | ⟨d, r3, ht, hto2⟩ <;>
        rw [hto2] at h <;> (try dsimp only at h)
      · rcases tryOpt_cases matchBlockGroup r2 with ⟨hb, hto3⟩ | ⟨e, r4, hb, hto3⟩ <;>
          rw [hto3] at h <;> (try dsimp only at h) <;> simp only [Option.some.injEq] at h <;> subst h
        · refine ⟨⟨r2, ?_⟩, hshape, hf2, trivial, trivial⟩
          rw [hs1, hf1]
          simp [fText, tText, bText]
        · obtain ⟨hb1, hb2⟩ := matchBlockGroup_some hb
          refine ⟨⟨r4, ?_⟩, hshape, hf2, trivial, hb2⟩
          rw [hs1, hf1, hb1]
          simp [fText, tText, bText]
      · obtain ⟨ht1, ht2⟩ := matchTimeGroup_some ht
        rcases tryOpt_cases matchBlockGroup r3 with ⟨hb, hto3⟩ | ⟨e, r4, hb, hto3⟩ <;>
          rw [hto3] at h <;> (try dsimp only at h) <;> simp only [Option.some.injEq] at h <;> subst h
        · refine ⟨⟨r3, ?_⟩, hshape, hf2, ht2, trivial⟩
          rw [hs1, hf1, ht1]
          simp [fText, tText, bText]
        · obtain ⟨hb1, hb2⟩ := matchBlockGroup_some hb
          refine ⟨⟨r4, ?_⟩, hshape, hf2, ht2, hb2⟩
          rw [hs1, hf1, ht1, hb1]
          simp [fText, tText, bText]

theorem matchCallAt_some {s : List Char} {m : CallMatch} (h : matchCallAt s = some m) :
    ∃ q, (s = q ∨ s = "FuzzEchidna.".data ++ q) ∧ matchCallGroups q = some m := by
  unfold matchCallAt at h
  split at h
  case _ r heq =>
    split at h
    case _ m2 heq2 =>
      simp only [Option.some.injEq] at h
      subst h
      exact ⟨r, Or.inr (dropLit_some heq), heq2⟩
    case _ => exact ⟨s, Or.inl rfl, h⟩
  · exact ⟨s, Or.inl rfl, h⟩

theorem callSearch_some : ∀ {line : List Char} {m : CallMatch}, callSearch line = some m →
    ∃ p q, line = p ++ q ∧ matchCallAt q = some m := by
  intro line
  induction line with
  | nil => exact fun h => ⟨[], [], rfl, h⟩
  | cons c cs ih =>
    intro m h
    unfold callSearch at h
    split at h
    case _ m2 heq =>
      simp only [Option.some.injEq] at h
      subst h
      exact ⟨[], c :: cs, rfl, heq⟩
    case _ heq =>
      obtain ⟨p, q, hpq, hm⟩ := ih h
      exact ⟨c :: p, q, by simp [hpq], hm⟩

theorem callSearch_parts {line : List Char} {m : CallMatch} (h : callSearch line = some m) :
    (∃ p rest, line = p ++ m.call ++ fText m.fromAddr ++ tText m.timeDelay
        ++ bText m.blockDelay ++ rest)
      ∧ callShape m.call ∧ addrShape m.fromAddr
      ∧ digitsShape m.timeDelay ∧ digitsShape m.blockDelay := by
  obtain ⟨p, q, hpq, hAt⟩ := callSearch_some h
  obtain ⟨q0, hq0, hg⟩ := matchCallAt_some hAt
  obtain ⟨⟨rest, hrest⟩, hc, ha, ht, hb⟩ := matchCallGroups_some hg
  refine ⟨?_, hc, ha, ht, hb⟩
  rcases hq0 with hq | hq
  · exact ⟨p, rest, by rw [hpq, hq, hrest]; simp⟩
  · exact ⟨p ++ "FuzzEchidna.".data, rest, by rw [hpq, hq, hrest]; simp⟩

theorem matchWaitAt_some {s : List Char} {wm : WaitMatch} (h : matchWaitAt s = some wm) :
    (∃ rest, s = "*wait*".data ++ tText wm.timeDelay ++ bText wm.blockDelay ++ rest)
      ∧ digitsShape wm.timeDelay ∧ digitsShape wm.blockDelay := by
  unfold matchWaitAt at h
  split at h
  case _ r1 heq =>
    have hs := dropLit_some heq
    rcases tryOpt_cases matchTimeGroup r1 with ⟨ht, hto⟩ | ⟨d, r2, ht, hto⟩ <;>
      rw [hto] at h <;> (try dsimp only at h)
    · rcases tryOpt_cases matchBlockGroup r1 with ⟨hb, hto2⟩ | ⟨e, r3, hb, hto2⟩ <;>
        rw [hto2] at h <;> (try dsimp only at h) <;>
        simp only [Option.some.injEq] at h <;> subst h
      · exact ⟨⟨r1, by simp [tText, bText, hs]⟩, trivial, trivial⟩
      · obtain ⟨hb1, hb2⟩ := matchBlockGroup_some hb
        exact ⟨⟨r3, by rw [hs, hb1]; simp [tText, bText]⟩, trivial, hb2⟩
    · obtain ⟨ht1, ht2⟩ := matchTimeGroup_some ht
      rcases tryOpt_cases matchBlockGroup r2 with ⟨hb, hto2⟩ | ⟨e, r3, hb, hto2⟩ <;>
        rw [hto2] at h <;> (try dsimp only at h) <;>
        simp only [Option.some.injEq] at h <;> subst h
      · exact ⟨⟨r2, by rw [hs, ht1]; simp [tText, bText]⟩, ht2, trivial⟩
      · obtain ⟨hb1, hb2⟩ := matchBlockGroup_some hb
        exact ⟨⟨r3, by rw [hs, ht1, hb1]; simp [tText, bText]⟩, ht2, hb2⟩
  · exact absurd h (by simp)

theorem waitSearch_some : ∀ {line : List Char} {wm : WaitMatch}, waitSearch line = some wm →
    ∃ p q, line = p ++ q ∧ matchWaitAt q = some wm := by
  intro line
  induction line with
  | nil => exact fun h => ⟨[], [], rfl, h⟩
  | cons c cs ih =>
    intro wm h
    unfold waitSearch at h
    split at h
    case _ m2 heq =>
      simp only [Option.some.injEq] at h
      subst h
      exact ⟨[], c :: cs, rfl, heq⟩
    case _ heq =>
      obtain ⟨p, q, hpq, hm⟩ := ih h
      exact ⟨c :: p, q, by simp [hpq], hm⟩

theorem waitSearch_parts {line : List Char} {wm : WaitMatch} (h : waitSearch line = some wm) :
    (∃ p rest, line = p ++ "*wait*".data ++ tText wm.timeDelay ++ bText wm.blockDelay ++ rest)
      ∧ digitsShape wm.timeDelay ∧ digitsShape wm.blockDelay := by
  obtain ⟨p, q, hpq, hAt⟩ := waitSearch_some h
  obtain ⟨⟨rest, hrest⟩, ht, hb⟩ := matchWaitAt_some hAt
  exact ⟨⟨p, rest, by rw [hpq, hrest]; simp⟩, ht, hb⟩

theorem matchCallAt_isSome {s : List Char} {m : CallMatch}
    (h : matchCallGroups s = some m) : ∃ m2, matchCallAt s = some m2 := by
  unfold matchCallAt
  split
  case _ r heq =>
    split
    case _ m3 heq2 => exact ⟨m3, rfl⟩
    case _ => exact ⟨m, h⟩
  · exact ⟨m, h⟩

theorem callSearch_found : ∀ (p q : List Char) {m : CallMatch},
    matchCallGroups q = some m → ∃ m2, callSearch (p ++ q) = some m2 := by
  intro p
  induction p with
  | nil =>
    intro q m h
    obtain ⟨m2, h2⟩ := matchCallAt_isSome h
    rw [List.nil_append]
    cases q with
    | nil => exact ⟨m2, h2⟩
    | cons c cs => exact ⟨m2, by unfold callSearch; rw [h2]⟩
  | cons a p ih =>
    intro q m h
    rw [List.cons_append]
    cases hA : matchCallAt (a :: (p ++ q)) with
    | some m3 => exact ⟨m3, by unfold callSearch; rw [hA]⟩
    | none =>
      obtain ⟨m2, h2⟩ := ih q h
      exact ⟨m2, by unfold callSearch; rw [hA]; exact h2⟩

theorem matchCore_of_shape (w mid rest : List Char) (hw : w ≠ [])
    (hword : ∀ c ∈ w, isWordChar c = true) (hmid : ∀ c ∈ mid, notRParen c = true) :
    matchCore (w ++ '(' :: (mid ++ ')' :: rest)) =
      some (w ++ '(' :: (mid ++ [')']), rest) := by
  have hdw : (w ++ '(' :: (mid ++ ')' :: rest)).dropWhile isWordChar =
      '(' :: (mid ++ ')' :: rest) := by
    rw [dropWhile_all w _ hword]
    simp [List.dropWhile_cons, isWordChar]
  have htw : (w ++ '(' :: (mid ++ ')' :: rest)).takeWhile isWordChar = w := by
    rw [takeWhile_all w _ hword]
    simp [List.takeWhile_cons, isWordChar]
  have hdw2 : (mid ++ ')' :: rest).dropWhile notRParen = ')' :: rest := by
    rw [dropWhile_all mid _ hmid]
    simp [List.dropWhile_cons, notRParen]
  have htw2 : (mid ++ ')' :: rest).takeWhile notRParen = mid := by
    rw [takeWhile_all mid _ hmid]
    simp [List.takeWhile_cons, notRParen]
  unfold matchCore
  rw [hdw, htw]
  dsimp only
  rw [if_pos ⟨rfl, hw⟩, hdw2, htw2]
  dsimp only
  rw [if_pos rfl]

theorem matchCallGroups_of_shape (w mid rest : List Char) (hw : w ≠ [])
    (hword : ∀ c ∈ w, isWordChar c = true) (hmid : ∀ c ∈ mid, notRParen c = true) :
    ∃ m : CallMatch, matchCallGroups (w ++ '(' :: (mid ++ ')' :: rest)) = some m
      ∧ m.call = w ++ '(' :: (mid ++ [')']) := by
  refine ⟨⟨w ++ '(' :: (mid ++ [')']), (tryOpt matchFromGroup rest).1,
    (tryOpt matchTimeGroup (tryOpt matchFromGroup rest).2).1,
    (tryOpt matchBlockGroup (tryOpt matchTimeGroup (tryOpt matchFromGroup rest).2).2).1⟩,
    ?_, rfl⟩
  unfold matchCallGroups
  rw [matchCore_of_shape w mid rest hw hword hmid]

theorem dropLit_fuzz_none :
    ∀ (w lit rest : List Char), '.' ∈ lit → (∀ c ∈ lit, isWordChar c = true ∨ c = '.') →
      (∀ c ∈ w, isWordChar c = true) → dropLit lit (w ++ '(' :: rest) = none := by
  intro w
  induction w with
  | nil =>
    intro lit rest hdot hlit _
    cases lit with
    | nil => simp at hdot
    | cons l ls =>
      have hl : ¬ ('(' = l) := by
        intro he
        rcases hlit l (by simp) with h | h
        · rw [← he] at h
          simp [isWordChar] at h
        · rw [← he] at h
          exact absurd h (by decide)
      simp only [List.nil_append, dropLit, if_neg hl]
  | cons a w ih =>
    intro lit rest hdot hlit hword
    cases lit with
    | nil => simp at hdot
    | cons l ls =>
      by_cases ha : a = l
      · subst ha
        have hana : a ≠ '.' := by
          intro he
          have hh := hword a (by simp)
          rw [he] at hh
          simp [isWordChar] at hh
        have hdot2 : '.' ∈ ls := by
          rcases List.mem_cons.mp hdot with h | h
          · exact absurd h.symm hana
          · exact h
        simp only [List.cons_append, dropLit, if_pos rfl]
        exact ih ls rest hdot2 (fun c hc => hlit c (by simp [hc]))
          (fun c hc => hword c (by simp [hc]))
      · have hne : ¬ (a = l) := ha
        simp only [List.cons_append, dropLit, if_neg hne]

theorem matchFromGroup_none_of_bad {tail : List Char} (hbad : beginsWithAddr tail = false) :
    matchFromGroup (" from: ".data ++ tail) = none := by
  unfold matchFromGroup
  rw [dropLit_self " from: ".data tail]
  unfold beginsWithAddr at hbad
  cases hd : dropLit "0x".data tail with
  | none => simp only [hd]
  | some r2 =>
    simp only [hd] at hbad
    simp only [hd]
    rw [if_neg]
    intro hcond
    rw [decide_eq_true hcond.1, hcond.2] at hbad
    simp at hbad

/-! Lemmas about the emission of statements. -/

theorem lineBlock_call {g : Bool} {line : List Char} {m : CallMatch}
    (h : callSearch line = some m) :
    lineBlock g line = optPrank m.fromAddr ++ optWarp m.timeDelay ++ optRoll m.blockDelay
      ++ callStmt g m.call ++ "\n" := by
  unfold lineBlock
  rw [h]

theorem lineBlock_wait {g : Bool} {line : List Char} {wm : WaitMatch}
    (hc : callSearch line = none) (hw : waitSearch line = some wm) :
    lineBlock g line = optWarp wm.timeDelay ++ optRoll wm.blockDelay ++ "\n" := by
  unfold lineBlock
  rw [hc, hw]

theorem lineBlock_skip {g : Bool} {line : List Char}
    (hc : callSearch line = none) (hw : waitSearch line = none) :
    lineBlock g line = "" := by
  unfold lineBlock
  rw [hc, hw]

theorem emitLines_split : ∀ (lines : List (List Char)) (k j i : Nat) (h : i < lines.length),
    ∃ pre post : String,
      emitLines k j lines =
        pre ++ lineBlock (decide (j + i < k)) (lines.get ⟨i, h⟩) ++ post := by
  intro lines
  induction lines with
  | nil =>
    intro k j i h
    exact absurd h (by simp)
  | cons l ls ih =>
    intro k j i h
    cases i with
    | zero => exact ⟨"", emitLines k (j + 1) ls, rfl⟩
    | succ i =>
      obtain ⟨pre, post, hsp⟩ := ih k (j + 1) i (by simpa using h)
      refine ⟨lineBlock (decide (j < k)) l ++ pre, post, ?_⟩
      have hnat : j + (i + 1) = j + 1 + i := by omega
      have hget : (l :: ls).get ⟨i + 1, h⟩ = ls.get ⟨i, by simpa using h⟩ := rfl
      rw [hget, hnat]
      show lineBlock (decide (j < k)) l ++ emitLines k (j + 1) ls = _
      rw [hsp, String.append_assoc, String.append_assoc, String.append_assoc]

theorem append3_ne (x : String) (y : List Char) (z : String) (hx : x.data ≠ []) :
    x ++ String.mk y ++ z ≠ "" := by
  intro h
  have hd := congrArg String.data h
  rw [String.data_append, String.data_append] at hd
  exact hx (List.append_eq_nil.mp (List.append_eq_nil.mp hd).1).1

/-! Claim theorems. -/

/-- C2: `convert_to_solidity` is total on strings — every input yields the
fixed signature line, a body and the closing line — and an input line that
matches neither the call pattern nor the wait pattern contributes nothing to
the output. -/
theorem claimC2 :
    (∀ s : List Char, ∃ body : String,
      convert_to_solidity s = "function test_replay() public \x7b\n" ++ body ++ "\x7d\n")
    ∧ ∀ (g : Bool) (line : List Char),
        callSearch line = none → waitSearch line = none → lineBlock g line = "" := by
  constructor
  · intro s
    exact ⟨emitLines ((splitNl (pyStrip s)).length - 1) 0 (splitNl (pyStrip s)), rfl⟩
  · intro g line hc hw
    exact lineBlock_skip hc hw

theorem claimC2_witness :
    callSearch ("txn header line").data = none ∧ waitSearch ("txn header line").data = none
      ∧ lineBlock true ("txn header line").data = "" :=
  ⟨by decide, by decide, claimC2.2 true ("txn header line").data (by decide) (by decide)⟩

/-- C3: an input containing zero non-blank lines — every character is
whitespace — yields exactly the empty replay function. -/
theorem claimC3 (s : List Char) (h : ∀ c ∈ s, pyIsSpace c = true) :
    convert_to_solidity s = "function test_replay() public \x7b\n\x7d\n" := by
  have h1 : s.dropWhile pyIsSpace = [] :=
    List.dropWhile_eq_nil_iff.mpr fun x hx => h x hx
  have h2 : pyStrip s = [] := by
    unfold pyStrip
    rw [h1]
    rfl
  unfold convert_to_solidity
  rw [h2]
  rfl

theorem claimC3_witness :
    (∀ c ∈ ("  \n \t ").data, pyIsSpace c = true) ∧
      convert_to_solidity ("  \n \t ").data = "function test_replay() public \x7b\n\x7d\n" :=
  ⟨by decide, claimC3 _ (by decide)⟩

/-- C5: for a recognized call line the statements are emitted in the fixed
order sender-impersonation, time-warp, block-roll, call, followed by a blank
line, and each of the first three is present exactly when its capture
exists. -/
theorem claimC5 (g : Bool) (line : List Char) (m : CallMatch)
    (h : callSearch line = some m) :
    lineBlock g line =
      optPrank m.fromAddr ++ optWarp m.timeDelay ++ optRoll m.blockDelay
        ++ callStmt g m.call ++ "\n"
    ∧ (optPrank m.fromAddr ≠ "" ↔ m.fromAddr.isSome = true)
    ∧ (optWarp m.timeDelay ≠ "" ↔ m.timeDelay.isSome = true)
    ∧ (optRoll m.blockDelay ≠ "" ↔ m.blockDelay.isSome = true) := by
  refine ⟨lineBlock_call h, ?_, ?_, ?_⟩
  · cases m.fromAddr with
    | none => simp [optPrank]
    | some a => exact iff_of_true (append3_ne _ _ _ (by decide)) rfl
  · cases m.timeDelay with
    | none => simp [optWarp]
    | some d => exact iff_of_true (append3_ne _ _ _ (by decide)) rfl
  · cases m.blockDelay with
    | none => simp [optRoll]
    | some d => exact iff_of_true (append3_ne _ _ _ (by decide)) rfl

theorem claimC5_witness :
    callSearch ("foo(1) Time delay: 5 seconds").data =
        some ⟨("foo(1)").data, none, some ['5'], none⟩
      ∧ (lineBlock true ("foo(1) Time delay: 5 seconds").data =
          optPrank none ++ optWarp (some ['5']) ++ optRoll none
            ++ callStmt true ("foo(1)").data ++ "\n"
        ∧ (optPrank none ≠ "" ↔ (none : Option (List Char)).isSome = true)
        ∧ (optWarp (some ['5']) ≠ "" ↔ (some ['5'] : Option (List Char)).isSome = true)
        ∧ (optRoll none ≠ "" ↔ (none : Option (List Char)).isSome = true)) :=
  ⟨by decide, claimC5 true ("foo(1) Time delay: 5 seconds").data
    ⟨("foo(1)").data, none, some ['5'], none⟩ (by decide)⟩

/-- C6: a recognized call line or wait line carrying a time delay `N` emits
`vm.warp(block.timestamp + N);`, and one carrying a block delay `N` emits
`vm.roll(block.number + N);`, where `N` is the exact nonempty digit string
captured from the input line (it appears verbatim in the line after the
group literal), emitted as a relative increment and never reformatted. -/
theorem claimC6 :
    (∀ (g : Bool) (line : List Char) (m : CallMatch) (d : List Char),
      callSearch line = some m → m.timeDelay = some d →
        lineBlock g line =
          optPrank m.fromAddr ++ ("    vm.warp(block.timestamp + " ++ String.mk d ++ ");\n")
            ++ optRoll m.blockDelay ++ callStmt g m.call ++ "\n"
        ∧ d ≠ [] ∧ (∀ c ∈ d, c.isDigit = true)
        ∧ ∃ a b, line = a ++ " Time delay: ".data ++ d ++ " seconds".data ++ b)
    ∧ (∀ (g : Bool) (line : List Char) (m : CallMatch) (d : List Char),
      callSearch line = some m → m.blockDelay = some d →
        lineBlock g line =
          optPrank m.fromAddr ++ optWarp m.timeDelay
            ++ ("    vm.roll(block.number + " ++ String.mk d ++ ");\n")
            ++ callStmt g m.call ++ "\n"
        ∧ d ≠ [] ∧ (∀ c ∈ d, c.isDigit = true)
        ∧ ∃ a b, line = a ++ " Block delay: ".data ++ d ++ b)
    ∧ (∀ (g : Bool) (line : List Char) (wm : WaitMatch) (d : List Char),
      callSearch line = none → waitSearch line = some wm → wm.timeDelay = some d →
        lineBlock g line =
          ("    vm.warp(block.timestamp + " ++ String.mk d ++ ");\n")
            ++ optRoll wm.blockDelay ++ "\n"
        ∧ d ≠ [] ∧ (∀ c ∈ d, c.isDigit = true)
        ∧ ∃ a b, line = a ++ " Time delay: ".data ++ d ++ " seconds".data ++ b)
    ∧ ∀ (g : Bool) (line : List Char) (wm : WaitMatch) (d : List Char),
      callSearch line = none → waitSearch line = some wm → wm.blockDelay = some d →
        lineBlock g line =
          optWarp wm.timeDelay ++ ("    vm.roll(block.number + " ++ String.mk d ++ ");\n")
            ++ "\n"
        ∧ d ≠ [] ∧ (∀ c ∈ d, c.isDigit = true)
        ∧ ∃ a b, line = a ++ " Block delay: ".data ++ d ++ b := by
  refine ⟨?_, ?_, ?_, ?_⟩
  · intro g line m d h hd
    obtain ⟨⟨p, rest, hline⟩, hcs, has, hts, hbs⟩ := callSearch_parts h
    rw [hd] at hline hts
    refine ⟨by rw [lineBlock_call h, hd]; rfl, hts.1, hts.2,
      p ++ m.call ++ fText m.fromAddr, bText m.blockDelay ++ rest, ?_⟩
    rw [hline]
    simp [tText, List.append_assoc]
  · intro g line m d h hd
    obtain ⟨⟨p, rest, hline⟩, hcs, has, hts, hbs⟩ := callSearch_parts h
    rw [hd] at hline hbs
    refine ⟨by rw [lineBlock_call h, hd]; rfl, hbs.1, hbs.2,
      p ++ m.call ++ fText m.fromAddr ++ tText m.timeDelay, rest, ?_⟩
    rw [hline]
    simp [bText, List.append_assoc]
  · intro g line wm d hc h hd
    obtain ⟨⟨p, rest, hline⟩, hts, hbs⟩ := waitSearch_parts h
    rw [hd] at hline hts
    refine ⟨by rw [lineBlock_wait hc h, hd]; rfl, hts.1, hts.2,
      p ++ "*wait*".data, bText wm.blockDelay ++ rest, ?_⟩
    rw [hline]
    simp [tText, List.append_assoc]
  · intro g line wm d hc h hd
    obtain ⟨⟨p, rest, hline⟩, hts, hbs⟩ := waitSearch_parts h
    rw [hd] at hline hbs
    refine ⟨by rw [lineBlock_wait hc h, hd]; rfl, hbs.1, hbs.2,
      p ++ "*wait*".data ++ tText wm.timeDelay, rest, ?_⟩
    rw [hline]
    simp [bText, List.append_assoc]

theorem claimC6_witness :
    callSearch ("foo(1) Time delay: 007 seconds").data =
        some ⟨("foo(1)").data, none, some ['0', '0', '7'], none⟩
      ∧ (lineBlock true ("foo(1) Time delay: 007 seconds").data =
          optPrank none ++ ("    vm.warp(block.timestamp + " ++ String.mk ['0', '0', '7'] ++ ");\n")
            ++ optRoll none ++ callStmt true ("foo(1)").data ++ "\n"
        ∧ ['0', '0', '7'] ≠ [] ∧ (∀ c ∈ ['0', '0', '7'], c.isDigit = true)
        ∧ ∃ a b, ("foo(1) Time delay: 007 seconds").data =
            a ++ " Time delay: ".data ++ ['0', '0', '7'] ++ " seconds".data ++ b) :=
  ⟨by decide, claimC6.1 true ("foo(1) Time delay: 007 seconds").data
    ⟨("foo(1)").data, none, some ['0', '0', '7'], none⟩ ['0', '0', '7'] (by decide) rfl⟩

/-- C7: for a recognized call line carrying a `from:` address, the
sender-impersonation statement `vm.prank(<address>);` precedes every other
statement of the block, and the address is the exact forty-hexadecimal-digit
string captured from the line, case preserved. -/
theorem claimC7 (g : Bool) (line : List Char) (m : CallMatch) (a : List Char)
    (h : callSearch line = some m) (ha : m.fromAddr = some a) :
    lineBlock g line =
      ("    vm.prank(" ++ String.mk a ++ ");\n")
        ++ (optWarp m.timeDelay ++ optRoll m.blockDelay ++ callStmt g m.call ++ "\n")
    ∧ (∃ p b, line = p ++ " from: ".data ++ a ++ b)
    ∧ ∃ hx, a = '0' :: 'x' :: hx ∧ hx.length = 40 ∧ ∀ c ∈ hx, isHexDigit c = true := by
  obtain ⟨⟨p, rest, hline⟩, hcs, has, hts, hbs⟩ := callSearch_parts h
  rw [ha] at hline has
  refine ⟨?_, ⟨p ++ m.call, tText m.timeDelay ++ bText m.blockDelay ++ rest, ?_⟩, has⟩
  · rw [lineBlock_call h, ha]
    simp [optPrank, String.append_assoc]
  · rw [hline]
    simp [fText, List.append_assoc]

theorem claimC7_witness :
    callSearch ("bar(7) from: 0x00aAbBcCdDeEfF00112233445566778899AabBcc").data =
        some ⟨("bar(7)").data, some ("0x00aAbBcCdDeEfF00112233445566778899AabBcc").data,
          none, none⟩
      ∧ (lineBlock false ("bar(7) from: 0x00aAbBcCdDeEfF00112233445566778899AabBcc").data =
          ("    vm.prank(" ++ String.mk ("0x00aAbBcCdDeEfF00112233445566778899AabBcc").data
            ++ ");\n")
            ++ (optWarp none ++ optRoll none ++ callStmt false ("bar(7)").data ++ "\n")
        ∧ (∃ p b, ("bar(7) from: 0x00aAbBcCdDeEfF00112233445566778899AabBcc").data =
            p ++ " from: ".data ++ ("0x00aAbBcCdDeEfF00112233445566778899AabBcc").data ++ b)
        ∧ ∃ hx, ("0x00aAbBcCdDeEfF00112233445566778899AabBcc").data = '0' :: 'x' :: hx
            ∧ hx.length = 40 ∧ ∀ c ∈ hx, isHexDigit c = true) :=
  ⟨by decide, claimC7 false ("bar(7) from: 0x00aAbBcCdDeEfF00112233445566778899AabBcc").data
    ⟨("bar(7)").data, some ("0x00aAbBcCdDeEfF00112233445566778899AabBcc").data, none, none⟩
    ("0x00aAbBcCdDeEfF00112233445566778899AabBcc").data (by decide) rfl⟩

/-- C8: every captured call expression is truncated at the first closing
parenthesis — its argument body contains no closing parenthesis — so a call
whose arguments contain a nested parenthesized sub-expression is emitted
mis-truncated, as on the input `foo(bar(1),2)`. -/
theorem claimC8 :
    (∀ (line : List Char) (m : CallMatch), callSearch line = some m →
      ∃ w mid, m.call = w ++ '(' :: (mid ++ [')']) ∧ w ≠ [] ∧
        (∀ c ∈ w, isWordChar c = true) ∧ ∀ c ∈ mid, notRParen c = true)
    ∧ convert_to_solidity ("foo(bar(1),2)").data =
        "function test_replay() public \x7b\n    foo(bar(1);\n\n\x7d\n" := by
  constructor
  · intro line m h
    exact (callSearch_parts h).2.1
  · decide

theorem claimC8_witness :
    callSearch ("foo(bar(1),2)").data = some ⟨("foo(bar(1)").data, none, none, none⟩
      ∧ ∃ w mid, ("foo(bar(1)").data = w ++ '(' :: (mid ++ [')']) ∧ w ≠ [] ∧
          (∀ c ∈ w, isWordChar c = true) ∧ ∀ c ∈ mid, notRParen c = true :=
  ⟨by decide, claimC8.1 ("foo(bar(1),2)").data ⟨("foo(bar(1)").data, none, none, none⟩
    (by decide)⟩

/-- C9: the call pattern is searched anywhere in the line, so a line with
arbitrary text around an identifier-then-parenthesized-arguments substring is
classified as a call line, and the matched substring is emitted as the
call of the block. -/
theorem claimC9 (p w mid q : List Char) (g : Bool) (hw : w ≠ [])
    (hword : ∀ c ∈ w, isWordChar c = true) (hmid : ∀ c ∈ mid, notRParen c = true) :
    ∃ m : CallMatch, callSearch (p ++ (w ++ '(' :: (mid ++ [')'])) ++ q) = some m
      ∧ lineBlock g (p ++ (w ++ '(' :: (mid ++ [')'])) ++ q) =
          optPrank m.fromAddr ++ optWarp m.timeDelay ++ optRoll m.blockDelay
            ++ callStmt g m.call ++ "\n" := by
  have hassoc : p ++ (w ++ '(' :: (mid ++ [')'])) ++ q =
      p ++ (w ++ '(' :: (mid ++ ')' :: q)) := by
    simp [List.append_assoc]
  obtain ⟨m0, hm0, _⟩ := matchCallGroups_of_shape w mid q hw hword hmid
  obtain ⟨m, hm⟩ := callSearch_found p _ hm0
  have hm2 : callSearch (p ++ (w ++ '(' :: (mid ++ [')'])) ++ q) = some m := by
    rw [hassoc]
    exact hm
  exact ⟨m, hm2, lineBlock_call hm2⟩

theorem claimC9_witness :
    ("fo_1".data ≠ [] ∧ (∀ c ∈ ("fo_1").data, isWordChar c = true)
      ∧ ∀ c ∈ ("1,2").data, notRParen c = true)
    ∧ ∃ m : CallMatch,
        callSearch (("// see ").data ++ (("fo_1").data ++ '(' :: (("1,2").data ++ [')']))
            ++ (" for details").data) = some m
          ∧ lineBlock true (("// see ").data ++ (("fo_1").data ++ '(' :: (("1,2").data ++ [')']))
              ++ (" for details").data) =
            optPrank m.fromAddr ++ optWarp m.timeDelay ++ optRoll m.blockDelay
              ++ callStmt true m.call ++ "\n" :=
  ⟨⟨by decide, by decide, by decide⟩,
    claimC9 ("// see ").data ("fo_1").data ("1,2").data (" for details").data true
      (by decide) (by decide) (by decide)⟩

/-- C10: a call line whose ` from: ` suffix does not carry `0x` plus forty
hexadecimal digits keeps its call statement, but no prank statement is
produced and delay suffixes after the malformed address are dropped: all
three optional captures stay empty. -/
theorem claimC10 (w mid tail : List Char) (g : Bool) (hw : w ≠ [])
    (hword : ∀ c ∈ w, isWordChar c = true) (hmid : ∀ c ∈ mid, notRParen c = true)
    (hbad : beginsWithAddr tail = false) :
    callSearch (w ++ '(' :: (mid ++ ')' :: (" from: ".data ++ tail))) =
        some ⟨w ++ '(' :: (mid ++ [')']), none, none, none⟩
      ∧ lineBlock g (w ++ '(' :: (mid ++ ')' :: (" from: ".data ++ tail))) =
          callStmt g (w ++ '(' :: (mid ++ [')'])) ++ "\n" := by
  have hf : matchFromGroup (" from: ".data ++ tail) = none := matchFromGroup_none_of_bad hbad
  have htoF : tryOpt matchFromGroup (" from: ".data ++ tail) =
      (none, " from: ".data ++ tail) := by
    unfold tryOpt
    rw [hf]
  have ht : matchTimeGroup (" from: ".data ++ tail) = none := rfl
  have htoT : tryOpt matchTimeGroup (" from: ".data ++ tail) =
      (none, " from: ".data ++ tail) := by
    unfold tryOpt
    rw [ht]
  have hb : matchBlockGroup (" from: ".data ++ tail) = none := rfl
  have htoB : tryOpt matchBlockGroup (" from: ".data ++ tail) =
      (none, " from: ".data ++ tail) := by
    unfold tryOpt
    rw [hb]
  have hg : matchCallGroups (w ++ '(' :: (mid ++ ')' :: (" from: ".data ++ tail))) =
      some ⟨w ++ '(' :: (mid ++ [')']), none, none, none⟩ := by
    unfold matchCallGroups
    rw [matchCore_of_shape w mid _ hw hword hmid]
    dsimp only
    rw [htoF]
    dsimp only
    rw [htoT]
    dsimp only
    rw [htoB]
  have hfz : dropLit "FuzzEchidna.".data (w ++ '(' :: (mid ++ ')' :: (" from: ".data ++ tail)))
      = none :=
    dropLit_fuzz_none w "FuzzEchidna.".data _ (by decide) (by decide) hword
  have hAt : matchCallAt (w ++ '(' :: (mid ++ ')' :: (" from: ".data ++ tail))) =
      some ⟨w ++ '(' :: (mid ++ [')']), none, none, none⟩ := by
    unfold matchCallAt
    rw [hfz]
    dsimp only
    exact hg
  cases w with
  | nil => exact absurd rfl hw
  | cons a w2 =>
    have hs : callSearch ((a :: w2) ++ '(' :: (mid ++ ')' :: (" from: ".data ++ tail))) =
        some ⟨(a :: w2) ++ '(' :: (mid ++ [')']), none, none, none⟩ := by
      rw [List.cons_append]
      unfold callSearch
      rw [List.cons_append] at hAt
      rw [hAt]
    exact ⟨hs, by rw [lineBlock_call hs]; rfl⟩

theorem claimC10_witness :
    (("foo").data ≠ [] ∧ (∀ c ∈ ("foo").data, isWordChar c = true)
      ∧ (∀ c ∈ ("1").data, notRParen c = true)
      ∧ beginsWithAddr ("0xZZ Time delay: 5 seconds").data = false)
    ∧ callSearch (("foo").data ++ '(' :: (("1").data ++ ')' ::
          (" from: ".data ++ ("0xZZ Time delay: 5 seconds").data))) =
        some ⟨("foo").data ++ '(' :: (("1").data ++ [')']), none, none, none⟩
    ∧ lineBlock true (("foo").data ++ '(' :: (("1").data ++ ')' ::
          (" from: ".data ++ ("0xZZ Time delay: 5 seconds").data))) =
        callStmt true (("foo").data ++ '(' :: (("1").data ++ [')'])) ++ "\n" :=
  ⟨⟨by decide, by decide, by decide, by decide⟩,
    (claimC10 ("foo").data ("1").data ("0xZZ Time delay: 5 seconds").data true
      (by decide) (by decide) (by decide) (by decide)).1,
    (claimC10 ("foo").data ("1").data ("0xZZ Time delay: 5 seconds").data true
      (by decide) (by decide) (by decide) (by decide)).2⟩

/-- C1 (amended): a recognized call line is emitted in the direct form
exactly when it is the last line of the stripped input; a recognized call
line at any earlier positional index is emitted in the guarded try/catch
form, even when it is the last recognized call line of the input. -/
theorem claimC1 (s : List Char) (i : Nat) (m : CallMatch)
    (h : i < (splitNl (pyStrip s)).length)
    (hm : callSearch ((splitNl (pyStrip s)).get ⟨i, h⟩) = some m) :
    ∃ pre post : String,
      convert_to_solidity s =
        pre ++ (optPrank m.fromAddr ++ optWarp m.timeDelay ++ optRoll m.blockDelay
          ++ callStmt (decide (i < (splitNl (pyStrip s)).length - 1)) m.call ++ "\n")
          ++ post := by
  obtain ⟨pre, post, hsp⟩ :=
    emitLines_split (splitNl (pyStrip s)) ((splitNl (pyStrip s)).length - 1) 0 i h
  rw [lineBlock_call hm] at hsp
  refine ⟨"function test_replay() public \x7b\n" ++ pre, post ++ "\x7d\n", ?_⟩
  show "function test_replay() public \x7b\n"
      ++ emitLines ((splitNl (pyStrip s)).length - 1) 0 (splitNl (pyStrip s))
      ++ "\x7d\n" = _
  rw [hsp]
  simp only [Nat.zero_add]
  simp [String.append_assoc]

/-- C1 counterexample: on `foo(1)` followed by a wait line, the only — hence
last — recognized call line is emitted in the guarded try/catch form, and the
direct statement the claim requires never occurs in the output. -/
theorem claimC1_counterexample :
    convert_to_solidity ("foo(1)\n*wait* Time delay: 5 seconds").data =
      "function test_replay() public \x7b\n    try this.foo(1) \x7b\x7d catch \x7b\x7d\n\n    vm.warp(block.timestamp + 5);\n\n\x7d\n"
    ∧ occursIn ("    foo(1);").data
        (convert_to_solidity ("foo(1)\n*wait* Time delay: 5 seconds").data).data = false := by
  constructor
  · decide
  · decide

theorem claimC1_witness :
    (0 < (splitNl (pyStrip ("foo(1)\nbar(2)").data)).length
      ∧ callSearch ((splitNl (pyStrip ("foo(1)\nbar(2)").data)).get ⟨0, by decide⟩) =
          some ⟨("foo(1)").data, none, none, none⟩)
    ∧ ∃ pre post : String,
        convert_to_solidity ("foo(1)\nbar(2)").data =
          pre ++ (optPrank none ++ optWarp none ++ optRoll none
            ++ callStmt (decide (0 < (splitNl (pyStrip ("foo(1)\nbar(2)").data)).length - 1))
              ("foo(1)").data ++ "\n") ++ post :=
  ⟨⟨by decide, by decide⟩,
    claimC1 ("foo(1)\nbar(2)").data 0 ⟨("foo(1)").data, none, none, none⟩
      (by decide) (by decide)⟩


theorem dropWhile_append_ne {p : Char → Bool} (L R : List Char)
    (h : L.dropWhile p = L) (hne : L ≠ []) :
    (L ++ R).dropWhile p = L ++ R := by
  cases L with
  | nil => exact absurd rfl hne
  | cons a t =>
    have hpa : p a = false := by
      by_contra hpa
      rw [Bool.not_eq_false] at hpa
      rw [List.dropWhile_cons, if_pos hpa] at h
      have hlen : (t.dropWhile p).length ≤ t.length := (List.dropWhile_suffix p).sublist.length_le
      rw [h] at hlen
      simp at hlen
    rw [List.cons_append, List.dropWhile_cons, if_neg (by simp [hpa])]

theorem splitNl_line : ∀ (L rest : List Char), '\n' ∉ L →
    splitNl (L ++ '\n' :: rest) = L :: splitNl rest := by
  intro L
  induction L with
  | nil =>
    intro rest _
    show splitNl ('\n' :: rest) = [] :: splitNl rest
    simp only [splitNl, if_true]
  | cons a t ih =>
    intro rest hmem
    have ha : ¬ (a = '\n') := fun he => hmem (he ▸ List.mem_cons_self a t)
    show splitNl (a :: (t ++ '\n' :: rest)) = (a :: t) :: splitNl rest
    simp only [splitNl]
    rw [if_neg ha, ih rest fun hm => hmem (List.mem_cons_of_mem a hm)]

theorem splitNl_noNl : ∀ (L : List Char), '\n' ∉ L → splitNl L = [L] := by
  intro L
  induction L with
  | nil => intro _; rfl
  | cons a t ih =>
    intro hmem
    have ha : ¬ (a = '\n') := fun he => hmem (he ▸ List.mem_cons_self a t)
    simp only [splitNl]
    rw [if_neg ha, ih fun hm => hmem (List.mem_cons_of_mem a hm)]

theorem pyStrip_call_sequence : pyStrip call_sequence = exBody := by
  have h1 : exLine1.dropWhile pyIsSpace = exLine1 := by decide
  have h1ne : exLine1 ≠ [] := by decide
  have h6 : exLine6.reverse.dropWhile pyIsSpace = exLine6.reverse := by decide
  have h6ne : exLine6.reverse ≠ [] := by decide
  have hbody : exBody ++ ['\n'] = exLine1 ++ ('\n' :: (exLine2 ++ '\n' :: (exLine3 ++ '\n' ::
      (exLine4 ++ '\n' :: (exLine5 ++ '\n' :: exLine6)))) ++ ['\n']) := by
    simp [exBody, List.append_assoc]
  have hd : call_sequence.dropWhile pyIsSpace = exBody ++ ['\n'] := by
    show (('\n') :: (exBody ++ ['\n'])).dropWhile pyIsSpace = exBody ++ ['\n']
    rw [List.dropWhile_cons, if_pos (by decide)]
    rw [hbody]
    exact dropWhile_append_ne _ _ h1 h1ne
  have hsplit6 : exBody = (exLine1 ++ '\n' :: (exLine2 ++ '\n' :: (exLine3 ++ '\n' ::
      (exLine4 ++ '\n' :: (exLine5 ++ ['\n']))))) ++ exLine6 := by
    simp [exBody, List.append_assoc]
  unfold pyStrip
  rw [hd]
  rw [show (exBody ++ ['\n']).reverse = '\n' :: exBody.reverse by simp]
  rw [List.dropWhile_cons, if_pos (by decide)]
  rw [hsplit6, List.reverse_append]
  rw [dropWhile_append_ne _ _ h6 h6ne]
  rw [← List.reverse_append, List.reverse_reverse]

theorem splitNl_exBody :
    splitNl exBody = [exLine1, exLine2, exLine3, exLine4, exLine5, exLine6] := by
  have n1 : '\n' ∉ exLine1 := by decide
  have n2 : '\n' ∉ exLine2 := by decide
  have n3 : '\n' ∉ exLine3 := by decide
  have n4 : '\n' ∉ exLine4 := by decide
  have n5 : '\n' ∉ exLine5 := by decide
  have n6 : '\n' ∉ exLine6 := by decide
  unfold exBody
  rw [splitNl_line _ _ n1, splitNl_line _ _ n2, splitNl_line _ _ n3, splitNl_line _ _ n4,
    splitNl_line _ _ n5, splitNl_noNl _ n6]


set_option maxRecDepth 6000 in
/-- C4: in the six-line example sequence embedded in the source, the fifth
line (superPool_deposit, time delay 12890, block delay 2) emits in order the
warp statement for 12890 seconds, the roll statement for 2 blocks, then the
guarded try/catch call, and the sixth line (superPool_accrue) emits only a
single direct unguarded call statement before the closing brace. -/
theorem claimC4 :
    ∃ pre : String,
      convert_to_solidity call_sequence =
        pre ++ ("    vm.warp(block.timestamp + 12890);\n"
          ++ "    vm.roll(block.number + 2);\n"
          ++ "    try this.superPool_deposit(2471014626329562921766540973864040188790499827740232305849727907622532581037,300049927207275286912120677015645361286792388203387750473288385764701810278,9611,11) \x7b\x7d catch \x7b\x7d\n"
          ++ "\n"
          ++ "    superPool_accrue(3875522779618249902206140535752302124524143995845094822322398450454949470,1294549);\n"
          ++ "\n"
          ++ "\x7d\n") := by
  have hb1 : lineBlock true exLine1 = "    try this.positionManager_newPosition(75,4239602985371585519784857218799180951679468223758275120249902258298053285541,\"position\") \x7b\x7d catch \x7b\x7d\n\n" := by decide
  have hb2 : lineBlock true exLine2 = "    try this.pool_deposit(5612412082746186779809571297207334191670470084944640256457657716870436111,16104550189466369373819457437429255987510137376595966637444104495934790722636,12319354668605856336294002983822144207718355281074213007300369367711086407307,1021616440887380716403815181483871874997098579803441396240324839152952487595) \x7b\x7d catch \x7b\x7d\n\n" := by decide
  have hb3 : lineBlock true exLine3 = "    try this.positionManager_processBatch(29913191965466402270774915614123778056948669361245930848093205140368824978679,121964281798266314902772058723270348670251064215350461179096180247114190349,1123916528497691789529510728220709526180606423706697110566719127638734689807,810986,110561,683836) \x7b\x7d catch \x7b\x7d\n\n" := by decide
  have hb4 : lineBlock true exLine4 = "    try this.positionManager_processBatch(87504998830143455158888229754666117995313845855954541742939848598923729040307,4370000,8900064022872852546885709482223329369436430294683914471222744702087126915340,53231469424195511978190971480577719241134195860811605962902140368237757929793,3989271,1524785993) \x7b\x7d catch \x7b\x7d\n\n" := by decide
  have hb5 : lineBlock true exLine5 = "    vm.warp(block.timestamp + 12890);\n" ++ "    vm.roll(block.number + 2);\n" ++ "    try this.superPool_deposit(2471014626329562921766540973864040188790499827740232305849727907622532581037,300049927207275286912120677015645361286792388203387750473288385764701810278,9611,11) \x7b\x7d catch \x7b\x7d\n" ++ "\n" := by decide
  have hb6 : lineBlock false exLine6 = "    superPool_accrue(3875522779618249902206140535752302124524143995845094822322398450454949470,1294549);\n" ++ "\n" := by decide
  refine ⟨"function test_replay() public \x7b\n" ++ "    try this.positionManager_newPosition(75,4239602985371585519784857218799180951679468223758275120249902258298053285541,\"position\") \x7b\x7d catch \x7b\x7d\n\n" ++ "    try this.pool_deposit(5612412082746186779809571297207334191670470084944640256457657716870436111,16104550189466369373819457437429255987510137376595966637444104495934790722636,12319354668605856336294002983822144207718355281074213007300369367711086407307,1021616440887380716403815181483871874997098579803441396240324839152952487595) \x7b\x7d catch \x7b\x7d\n\n" ++ "    try this.positionManager_processBatch(29913191965466402270774915614123778056948669361245930848093205140368824978679,121964281798266314902772058723270348670251064215350461179096180247114190349,1123916528497691789529510728220709526180606423706697110566719127638734689807,810986,110561,683836) \x7b\x7d catch \x7b\x7d\n\n" ++ "    try this.positionManager_processBatch(87504998830143455158888229754666117995313845855954541742939848598923729040307,4370000,8900064022872852546885709482223329369436430294683914471222744702087126915340,53231469424195511978190971480577719241134195860811605962902140368237757929793,3989271,1524785993) \x7b\x7d catch \x7b\x7d\n\n", ?_⟩
  unfold convert_to_solidity
  rw [pyStrip_call_sequence, splitNl_exBody]
  show "function test_replay() public \x7b\n"
      ++ (lineBlock true exLine1 ++ (lineBlock true exLine2 ++ (lineBlock true exLine3
        ++ (lineBlock true exLine4 ++ (lineBlock true exLine5 ++ (lineBlock false exLine6 ++ ""))))))
      ++ "\x7d\n" = _
  rw [hb1, hb2, hb3, hb4, hb5, hb6]
  simp only [String.append_empty, String.append_assoc]


end Reproduce
